import Mathlib

set_option maxRecDepth 8000
set_option maxHeartbeats 1600000

/-! Shallow embedding of the mini-RAG hybrid reranker and answer generator
    (src/reranker.py, src/answer_generator.py, src/config.py).

    Scores are modelled as rationals.  Python dict-shaped candidate records
    become a structure whose reranker-added keys are `Option` fields.
    Python's stable `list.sort(key=..., reverse=True)` is modelled by
    `List.insertionSort` with the non-strict descending key relation, which
    places an earlier element before a later one exactly when the later key
    is not larger, i.e. equal keys keep their original order. -/

/-- Word characters of the regex class `\w`, for ASCII input. -/
def isWordChar (c : Char) : Bool := c.isAlphanum || c = '_'

/-- Accumulator pass splitting a character list into the maximal runs of
word characters, as `re.findall` with pattern `\b\w+\b` does. -/
def tokenizeAux : List Char → List Char → List String
  | [], acc => if acc.isEmpty then [] else [String.mk acc.reverse]
  | c :: cs, acc =>
    if isWordChar c then tokenizeAux cs (c :: acc)
    else if acc.isEmpty then tokenizeAux cs acc
    else String.mk acc.reverse :: tokenizeAux cs []

/-- Embedding of `HybridReranker._tokenize` and of the word extraction in
`_extract_relevant_sentences`: lowercase, then take the `\w+` runs. -/
def tokenize (s : String) : List String := tokenizeAux (s.data.map Char.toLower) []

/-- Terminal sentence punctuation of `re.split` with pattern `[.!?]+`. -/
def isTerminalChar (c : Char) : Bool := c = '.' || c = '!' || c = '?'

/-- Split on terminal punctuation characters.  Splitting on each single
character rather than on maximal runs only inserts extra empty pieces,
which the caller discards, so after the empty-piece filter this matches
`re.split` with pattern `[.!?]+`. -/
def splitOnTerminals : List Char → List Char → List String
  | [], acc => [String.mk acc.reverse]
  | c :: cs, acc =>
    if isTerminalChar c then String.mk acc.reverse :: splitOnTerminals cs []
    else splitOnTerminals cs (c :: acc)

/-- Embedding of Python `str.strip`. -/
def stripStr (s : String) : String :=
  String.mk (((s.data.dropWhile Char.isWhitespace).reverse.dropWhile Char.isWhitespace).reverse)

/-- Lines 65-66 of `answer_generator.py`: split the text into sentences on
terminal punctuation, strip whitespace, drop empty pieces. -/
def splitSentences (text : String) : List String :=
  ((splitOnTerminals text.data []).map stripStr).filter (fun s => !s.isEmpty)

/-- Lines 69-74 of `answer_generator.py`: the size of the set intersection
of the sentence's and the query's lowercase word-token sets. -/
def overlapScore (query s : String) : Nat :=
  ((tokenize s).dedup.filter (fun w => decide (w ∈ tokenize query))).length

/-- Embedding of `AnswerGenerator._extract_relevant_sentences`: score every
sentence, sort by overlap descending (stable), truncate to the first two,
then keep those with positive overlap and length above 20. -/
def extractRelevantSentences (query text : String) : List String :=
  ((( List.insertionSort (fun a b : String × Nat => b.2 ≤ a.2)
      ((splitSentences text).map (fun s => (s, overlapScore query s)))).take 2).filter
        (fun p => decide (0 < p.2 ∧ 20 < p.1.length))).map (fun p => p.1)

/-- Sentences of the passage ranked by query overlap, descending, ties in
original text order: the sorted `scored_sentences` list of the source with
the scores projected away. -/
def rankedSentences (query text : String) : List String :=
  (List.insertionSort (fun a b : String × Nat => b.2 ≤ a.2)
    ((splitSentences text).map (fun s => (s, overlapScore query s)))).map (fun p => p.1)

/-- Modelled from the spec: "rank sentences by this overlap count
descending; keep sentences with overlap > 0 and length > 20 characters,
capped at 2 per passage", read as keeping the qualifying sentences first
and capping afterwards.  Used only to compare against the source's
`extractRelevantSentences`, which truncates before filtering. -/
def specExtractRelevantSentences (query text : String) : List String :=
  ((( List.insertionSort (fun a b : String × Nat => b.2 ≤ a.2)
      ((splitSentences text).map (fun s => (s, overlapScore query s)))).filter
        (fun p => decide (0 < p.2 ∧ 20 < p.1.length))).take 2).map (fun p => p.1)

/-- Round a rational to the nearest integer, ties to the even integer, as
Python's fixed-point float formatting rounds.  The embedding uses exact
rationals where the source uses binary floats, so decimal midpoints are
resolved half-to-even here. -/
def roundHalfEven (x : ℚ) : ℤ :=
  let f : ℤ := ⌊x⌋
  if x - f < 1 / 2 then f
  else if 1 / 2 < x - f then f + 1
  else if f % 2 = 0 then f else f + 1

/-- Left-pad a fractional part below 1000 to three digits. -/
def pad3 (k : Nat) : String :=
  (if k < 10 then "00" else if k < 100 then "0" else "") ++ toString k

/-- Embedding of Python's format specifier `.3f` on a score. -/
def format3 (q : ℚ) : String :=
  let n : ℤ := roundHalfEven (q * 1000)
  (if n < 0 then "-" else "") ++ toString (n.natAbs / 1000) ++ "." ++ pad3 (n.natAbs % 1000)

/-- Candidate record flowing from vector search through the reranker into
the answer generator.  The first five fields are always present on a vector
search result; the last four are attached by `HybridReranker.rerank` and
absent (`none`) before reranking, mirroring dict key presence. -/
structure Candidate where
  id : Int
  chunk_text : String
  title : String
  url : String
  vector_score : ℚ
  hybrid_score : Option ℚ := none
  bm25_score : Option ℚ := none
  normalized_vector_score : Option ℚ := none
  normalized_bm25_score : Option ℚ := none
deriving DecidableEq, Repr

/-- Citation dict built at lines 47-52 of `answer_generator.py`. -/
structure Citation where
  source : String
  url : String
  score : ℚ
  text : String
deriving DecidableEq, Repr

/-- Embedding of the `AnswerGenerator` object: `self.threshold` together
with its Python `str` rendering used by the gate's f-string. -/
structure AnswerGenerator where
  threshold : ℚ
  thresholdStr : String

/-- Line 26 of `answer_generator.py`:
`context.get('hybrid_score', context.get('vector_score', 0))`.  In this
embedding `vector_score` is a required field, as every vector search result
carries it, so the inner default of the source is never consulted. -/
def topScore (c : Candidate) : ℚ := c.hybrid_score.getD c.vector_score

/-- Line 51 of `answer_generator.py`: the 200-character text preview. -/
def truncText (s : String) : String :=
  if 200 < s.length then s.take 200 ++ "..." else s

/-- The citation dict appended for a contributing context. -/
def mkCitation (c : Candidate) : Citation :=
  { source := c.title, url := c.url, score := topScore c, text := truncText c.chunk_text }

/-- Loop of lines 35-52 of `answer_generator.py`, gathering the extracted
sentences and the citations of the examined contexts in input order. -/
def collectParts (g : AnswerGenerator) (query : String) :
    List Candidate → List String × List Citation
  | [] => ([], [])
  | c :: rest =>
    if topScore c < g.threshold * (7 / 10) then collectParts g query rest
    else
      let sents := extractRelevantSentences query c.chunk_text
      if sents.isEmpty then collectParts g query rest
      else
        let pr := collectParts g query rest
        (sents ++ pr.1, mkCitation c :: pr.2)

/-- Lines 89-95 of `answer_generator.py`: remove duplicates while keeping
the first occurrence, with `seen` as the already-seen set. -/
def dedupFirst : List String → List String → List String
  | [], _ => []
  | x :: xs, seen =>
    if x ∈ seen then dedupFirst xs seen else x :: dedupFirst xs (x :: seen)

/-- Lines 101-104 of `answer_generator.py`: the numbered citation lines. -/
def citationRefs (citations : List Citation) : List String :=
  (List.enumFrom 1 citations).map (fun p => "[" ++ toString p.1 ++ "] " ++ p.2.source)

/-- Embedding of `AnswerGenerator._combine_answer_parts`. -/
def combineAnswerParts (answer_parts : List String) (citations : List Citation) : String :=
  let answer := String.intercalate " " (dedupFirst answer_parts [])
  if citations.isEmpty then answer
  else answer ++ "\n\nSources: " ++ String.intercalate ", " (citationRefs citations)

/-- Lines 31-60 of `answer_generator.py`: the part of `generate_answer`
after the confidence gate has been passed. -/
def answerFromContexts (g : AnswerGenerator) (query : String) (contexts : List Candidate)
    (top_score : ℚ) : Option String × String :=
  let pc := collectParts g query (contexts.take 3)
  if pc.1.isEmpty then (none, "No relevant information found in contexts")
  else
    (some (combineAnswerParts pc.1 pc.2),
     "Answer generated from " ++ toString pc.2.length ++ " sources with top score "
       ++ format3 top_score)

/-- Embedding of `AnswerGenerator.generate_answer` (the `reranker_used`
argument of the source does not influence the result and is omitted). -/
def generate_answer (g : AnswerGenerator) (query : String) (contexts : List Candidate) :
    Option String × String :=
  match contexts with
  | [] => (none, "No relevant contexts found")
  | c0 :: _ =>
    let top_score := topScore c0
    if top_score < g.threshold then
      (none, "Top result score (" ++ format3 top_score ++ ") below confidence threshold ("
        ++ g.thresholdStr ++ ")")
    else answerFromContexts g query contexts top_score

/-- Python `min(scores)` for the nonempty lists the source applies it to. -/
def listMin : List ℚ → ℚ
  | [] => 0
  | x :: xs => xs.foldl min x

/-- Python `max(scores)` for the nonempty lists the source applies it to. -/
def listMax : List ℚ → ℚ
  | [] => 0
  | x :: xs => xs.foldl max x

/-- Embedding of `HybridReranker._normalize_scores`. -/
def normalizeScores (scores : List ℚ) : List ℚ :=
  if scores.isEmpty then scores
  else
    let min_score := listMin scores
    let max_score := listMax scores
    if max_score = min_score then List.replicate scores.length 1
    else scores.map (fun score => (score - min_score) / (max_score - min_score))

/-- Embedding of the `HybridReranker` object state after `__init__`: the
ids of the indexed chunks together with the BM25 index, modelled as the
opaque scoring oracle `get_scores` mapping the tokenized query to one score
per indexed chunk, in `chunk_ids` order.  When the database holds no chunks,
`_build_bm25_index` leaves `self.bm25 = None` and `chunk_ids` empty. -/
structure HybridReranker where
  chunk_ids : List Int
  bm25 : Option (List String → List ℚ)

/-- Python `dict.get(key, 0.0)` on an association list built by successive
assignments; a later binding of the same key wins, hence the lookup on the
reversed list. -/
def dictGet (pairs : List (Int × ℚ)) (k : Int) : ℚ :=
  (List.lookup k pairs.reverse).getD 0

/-- Lines 67-74 of `reranker.py`: the `chunk_id_to_bm25` mapping, pairing
each indexed chunk id with its BM25 score for the query. -/
def chunkBm25 (rr : HybridReranker) (get_scores : List String → List ℚ)
    (query : String) : List (Int × ℚ) :=
  rr.chunk_ids.zip (get_scores (tokenize query))

/-- Lines 76-96 of `reranker.py`: the `hybrid_results` list before sorting.
Each candidate is copied and the hybrid, raw BM25 and the two normalized
scores are attached; the source's parallel index loop is rendered by
zipping the candidates with the two normalized score lists. -/
def fuseScores (alpha : ℚ) (rr : HybridReranker) (get_scores : List String → List ℚ)
    (query : String) (vector_results : List Candidate) : List Candidate :=
  let chunk_id_to_bm25 := chunkBm25 rr get_scores query
  let bm25_scores_subset := vector_results.map (fun r => dictGet chunk_id_to_bm25 r.id)
  let normalized_vector_scores := normalizeScores (vector_results.map (fun r => r.vector_score))
  let normalized_bm25_scores := normalizeScores bm25_scores_subset
  (vector_results.zip (normalized_vector_scores.zip normalized_bm25_scores)).map (fun p =>
    { p.1 with
      hybrid_score := some (alpha * p.2.1 + (1 - alpha) * p.2.2)
      bm25_score := some (dictGet chunk_id_to_bm25 p.1.id)
      normalized_vector_score := some p.2.1
      normalized_bm25_score := some p.2.2 })

/-- Sort key of line 99 of `reranker.py`; every element sorted there
carries a `hybrid_score`, so the default is never consulted. -/
def hybridKey (c : Candidate) : ℚ := c.hybrid_score.getD 0

/-- Embedding of `HybridReranker.rerank` with the fusion weight `ALPHA`
explicit.  An empty candidate list or an absent BM25 index short-circuits
to the input; otherwise the fused list is stably sorted by hybrid score
descending. -/
def rerank (alpha : ℚ) (rr : HybridReranker) (query : String)
    (vector_results : List Candidate) : List Candidate :=
  if vector_results.isEmpty then vector_results
  else
    match rr.bm25 with
    | none => vector_results
    | some get_scores =>
      List.insertionSort (fun a b => hybridKey b ≤ hybridKey a)
        (fuseScores alpha rr get_scores query vector_results)

/-- Forget the four reranker-attached score fields of a candidate, keeping
the underlying passage data and the raw semantic score; used to compare
candidate orderings. -/
def stripScores (c : Candidate) : Candidate :=
  { c with hybrid_score := none, bm25_score := none,
           normalized_vector_score := none, normalized_bm25_score := none }

/-- Modelled from the spec: the "semantic-only order", a stable descending
sort of the candidates by raw semantic score, ties per original order. -/
def semanticOrder (vector_results : List Candidate) : List Candidate :=
  List.insertionSort (fun a b => b.vector_score ≤ a.vector_score) vector_results

/-- Modelled from the spec: the "lexical-only order", a stable descending
sort of the candidates by their BM25 score for the query (zero when the
candidate is absent from the lexical index), ties per original order. -/
def lexicalOrder (rr : HybridReranker) (get_scores : List String → List ℚ)
    (query : String) (vector_results : List Candidate) : List Candidate :=
  List.insertionSort (fun a b =>
    dictGet (chunkBm25 rr get_scores query) b.id ≤ dictGet (chunkBm25 rr get_scores query) a.id)
    vector_results

/-- Closed form of a normalized score: the all-tied fallback 1 when the
extrema coincide, the min-max affine rescaling otherwise. -/
def normFn (mn mx s : ℚ) : ℚ := if mx = mn then 1 else (s - mn) / (mx - mn)

/-- The BM25 score looked up for a candidate, zero when absent. -/
def bmOf (rr : HybridReranker) (get_scores : List String → List ℚ) (query : String)
    (r : Candidate) : ℚ := dictGet (chunkBm25 rr get_scores query) r.id

/-- The normalized semantic score a candidate receives when fused within
the candidate set `res`. -/
def normVec (res : List Candidate) (r : Candidate) : ℚ :=
  normFn (listMin (res.map (fun c => c.vector_score)))
    (listMax (res.map (fun c => c.vector_score))) r.vector_score

/-- The normalized lexical score a candidate receives when fused within the
candidate set `res`. -/
def normBm (rr : HybridReranker) (get_scores : List String → List ℚ) (query : String)
    (res : List Candidate) (r : Candidate) : ℚ :=
  normFn (listMin (res.map (bmOf rr get_scores query)))
    (listMax (res.map (bmOf rr get_scores query))) (bmOf rr get_scores query r)

/-- Per-candidate closed form of the copy-and-attach step of `fuseScores`. -/
def attachFn (alpha : ℚ) (rr : HybridReranker) (get_scores : List String → List ℚ)
    (query : String) (res : List Candidate) (r : Candidate) : Candidate :=
  { r with
    hybrid_score :=
      some (alpha * normVec res r + (1 - alpha) * normBm rr get_scores query res r)
    bm25_score := some (bmOf rr get_scores query r)
    normalized_vector_score := some (normVec res r)
    normalized_bm25_score := some (normBm rr get_scores query res r) }

/-- Boolean form of the tests at lines 39 and 45 of `answer_generator.py`:
a context within the examined window contributes exactly when its score is
not below the supporting bar and at least one relevant sentence was
extracted from it. -/
def contributes (g : AnswerGenerator) (query : String) (c : Candidate) : Bool :=
  !decide (topScore c < g.threshold * (7 / 10))
    && !(extractRelevantSentences query c.chunk_text).isEmpty

/-- Concrete candidate used to instantiate the reranker claims. -/
def wOrig : Candidate :=
  { id := 9, chunk_text := "x", title := "t", url := "u", vector_score := mkRat 1 2 }

/-- Fused copy of `wOrig` as produced by `rerank` on the singleton list:
with one candidate both normalized scores are 1 and the id 9 is absent
from the index, so the raw BM25 score defaults to 0. -/
def wFused : Candidate :=
  { id := 9, chunk_text := "x", title := "t", url := "u", vector_score := mkRat 1 2,
    hybrid_score := some 1, bm25_score := some 0, normalized_vector_score := some 1,
    normalized_bm25_score := some 1 }

/-- Single-document BM25 oracle used to instantiate the reranker claims. -/
def wScores : List String → List ℚ := fun _ => [(3 : ℚ)]

/-- Reranker state with one indexed chunk (id 5), used to instantiate the
reranker claims. -/
def wRR : HybridReranker := ⟨[5], some wScores⟩

theorem foldl_min_le_init (l : List ℚ) (a : ℚ) : l.foldl min a ≤ a := by
  induction l generalizing a with
  | nil => exact le_refl a
  | cons x xs ih => exact le_trans (ih (min a x)) (min_le_left a x)

theorem foldl_min_le_mem (l : List ℚ) (a x : ℚ) (hx : x ∈ l) : l.foldl min a ≤ x := by
  induction l generalizing a with
  | nil => cases hx
  | cons y ys ih =>
    rcases List.mem_cons.mp hx with h | h
    · subst h; exact le_trans (foldl_min_le_init ys (min a x)) (min_le_right a x)
    · exact ih (min a y) h

theorem init_le_foldl_max (l : List ℚ) (a : ℚ) : a ≤ l.foldl max a := by
  induction l generalizing a with
  | nil => exact le_refl a
  | cons x xs ih => exact le_trans (le_max_left a x) (ih (max a x))

theorem mem_le_foldl_max (l : List ℚ) (a x : ℚ) (hx : x ∈ l) : x ≤ l.foldl max a := by
  induction l generalizing a with
  | nil => cases hx
  | cons y ys ih =>
    rcases List.mem_cons.mp hx with h | h
    · subst h; exact le_trans (le_max_right a x) (init_le_foldl_max ys (max a x))
    · exact ih (max a y) h

theorem listMin_le (l : List ℚ) (x : ℚ) (hx : x ∈ l) : listMin l ≤ x := by
  rcases l with _ | ⟨y, ys⟩
  · cases hx
  · rcases List.mem_cons.mp hx with h | h
    · subst h; exact foldl_min_le_init ys x
    · exact foldl_min_le_mem ys y x h

theorem le_listMax (l : List ℚ) (x : ℚ) (hx : x ∈ l) : x ≤ listMax l := by
  rcases l with _ | ⟨y, ys⟩
  · cases hx
  · rcases List.mem_cons.mp hx with h | h
    · subst h; exact init_le_foldl_max ys x
    · exact mem_le_foldl_max ys y x h

theorem eq_listMin_of_extrema_eq (l : List ℚ) (h : listMax l = listMin l) (x : ℚ)
    (hx : x ∈ l) : x = listMin l :=
  le_antisymm (h ▸ le_listMax l x hx) (listMin_le l x hx)

theorem listMin_le_listMax (l : List ℚ) (h : l ≠ []) : listMin l ≤ listMax l := by
  rcases l with _ | ⟨y, ys⟩
  · exact absurd rfl h
  · exact le_trans (listMin_le _ y (List.mem_cons_self y ys)) (le_listMax _ y (List.mem_cons_self y ys))

theorem normalizeScores_eq_map (l : List ℚ) (h : l ≠ []) :
    normalizeScores l = l.map (normFn (listMin l) (listMax l)) := by
  rcases l with _ | ⟨x, xs⟩
  · exact absurd rfl h
  · simp only [normalizeScores, List.isEmpty_cons, Bool.false_eq_true, if_false]
    by_cases hmm : listMax (x :: xs) = listMin (x :: xs)
    · rw [if_pos hmm]
      have hfn : normFn (listMin (x :: xs)) (listMax (x :: xs)) = fun _ => (1 : ℚ) :=
        funext fun s => by simp [normFn, hmm]
      rw [hfn, List.map_const']
    · rw [if_neg hmm]
      apply List.map_congr_left
      intro s _
      simp [normFn, hmm]

theorem normFn_le_iff (l : List ℚ) (x y : ℚ) (hx : x ∈ l) (hy : y ∈ l) :
    (normFn (listMin l) (listMax l) x ≤ normFn (listMin l) (listMax l) y ↔ x ≤ y) := by
  by_cases h : listMax l = listMin l
  · have hx1 := eq_listMin_of_extrema_eq l h x hx
    have hy1 := eq_listMin_of_extrema_eq l h y hy
    simp [normFn, h, hx1, hy1]
  · have hne : l ≠ [] := by rintro rfl; exact h rfl
    have hlt : listMin l < listMax l :=
      lt_of_le_of_ne (listMin_le_listMax l hne) (fun e => h e.symm)
    simp only [normFn, if_neg h]
    rw [div_le_div_iff_of_pos_right (sub_pos.mpr hlt)]
    exact sub_le_sub_iff_right _

theorem zip_map_pair {α β γ : Type} (l : List α) (f : α → β) (g : α → γ) :
    l.zip ((l.map f).zip (l.map g)) = l.map (fun x => (x, f x, g x)) := by
  induction l with
  | nil => rfl
  | cons x xs ih => simp only [List.map_cons, List.zip_cons_cons, ih]

theorem fuseScores_eq_map (alpha : ℚ) (rr : HybridReranker)
    (get_scores : List String → List ℚ) (query : String) (res : List Candidate)
    (h : res ≠ []) :
    fuseScores alpha rr get_scores query res = res.map (attachFn alpha rr get_scores query res) := by
  have h1 : res.map (fun r => r.vector_score) ≠ [] := by
    simpa using h
  have h2 : res.map (fun r => dictGet (chunkBm25 rr get_scores query) r.id) ≠ [] := by
    simpa using h
  simp only [fuseScores]
  rw [normalizeScores_eq_map _ h1, normalizeScores_eq_map _ h2, List.map_map, List.map_map,
    zip_map_pair, List.map_map]
  rfl

theorem filter_key_orderedInsert {α : Type} (key : α → ℚ) (k : ℚ) (a : α) (m : List α) :
    (List.orderedInsert (fun x y => key y ≤ key x) a m).filter (fun x => decide (key x = k))
      = if key a = k
        then a :: m.filter (fun x => decide (key x = k))
        else m.filter (fun x => decide (key x = k)) := by
  induction m with
  | nil =>
    by_cases ha : key a = k
    · simp [List.orderedInsert, List.filter, ha]
    · simp [List.orderedInsert, List.filter, ha]
  | cons y ys ih =>
    by_cases hy : key y ≤ key a
    · rw [List.orderedInsert_of_le _ ys hy]
      by_cases ha : key a = k <;> simp [List.filter_cons, ha]
    · rw [show List.orderedInsert (fun x y => key y ≤ key x) a (y :: ys)
            = y :: List.orderedInsert (fun x y => key y ≤ key x) a ys from if_neg hy]
      by_cases ha : key a = k
      · have hyk2 : ¬ key y = k := fun e => hy (le_of_eq (ha ▸ e))
        simp [List.filter_cons, hyk2, ih, if_pos ha]
      · by_cases hyy : key y = k <;>
          simp [List.filter_cons, hyy, ih, ha]

theorem filter_key_insertionSort {α : Type} (key : α → ℚ) (k : ℚ) (l : List α) :
    (List.insertionSort (fun x y => key y ≤ key x) l).filter (fun x => decide (key x = k))
      = l.filter (fun x => decide (key x = k)) := by
  induction l with
  | nil => rfl
  | cons a t ih =>
    show (List.orderedInsert _ a (List.insertionSort _ t)).filter _ = _
    rw [filter_key_orderedInsert key k a, ih]
    by_cases ha : key a = k <;> simp [List.filter_cons, ha]

theorem rerank_eq_sort (alpha : ℚ) (rr : HybridReranker) (get_scores : List String → List ℚ)
    (query : String) (res : List Candidate) (hne : res ≠ []) (hb : rr.bm25 = some get_scores) :
    rerank alpha rr query res
      = List.insertionSort (fun a b => hybridKey b ≤ hybridKey a)
          (fuseScores alpha rr get_scores query res) := by
  rcases res with _ | ⟨c, cs⟩
  · exact absurd rfl hne
  · simp only [rerank, List.isEmpty_cons, Bool.false_eq_true, if_false, hb]

theorem mem_dedupFirst (l : List String) (seen : List String) (x : String) :
    x ∈ dedupFirst l seen ↔ x ∈ l ∧ x ∉ seen := by
  induction l generalizing seen with
  | nil => simp [dedupFirst]
  | cons y ys ih =>
    by_cases hy : y ∈ seen
    · rw [dedupFirst, if_pos hy, ih]
      constructor
      · rintro ⟨h1, h2⟩; exact ⟨List.mem_cons_of_mem y h1, h2⟩
      · rintro ⟨h1, h2⟩
        rcases List.mem_cons.mp h1 with rfl | h1
        · exact absurd hy h2
        · exact ⟨h1, h2⟩
    · rw [dedupFirst, if_neg hy]
      constructor
      · intro hx
        rcases List.mem_cons.mp hx with rfl | hx
        · exact ⟨List.mem_cons_self x ys, hy⟩
        · rcases (ih (y :: seen)).mp hx with ⟨h1, h2⟩
          exact ⟨List.mem_cons_of_mem y h1, fun hs => h2 (List.mem_cons_of_mem y hs)⟩
      · rintro ⟨h1, h2⟩
        rcases List.mem_cons.mp h1 with rfl | h1
        · exact List.mem_cons_self x _
        · by_cases hxy : x = y
          · subst hxy; exact List.mem_cons_self x _
          · exact List.mem_cons_of_mem y ((ih (y :: seen)).mpr
              ⟨h1, fun hs => (List.mem_cons.mp hs).elim hxy h2⟩)

theorem dedupFirst_nodup (l : List String) (seen : List String) :
    (dedupFirst l seen).Nodup := by
  induction l generalizing seen with
  | nil => exact List.nodup_nil
  | cons y ys ih =>
    by_cases hy : y ∈ seen
    · rw [dedupFirst, if_pos hy]; exact ih seen
    · rw [dedupFirst, if_neg hy]
      refine List.Nodup.cons (fun hmem => ?_) (ih (y :: seen))
      exact ((mem_dedupFirst ys (y :: seen) y).mp hmem).2 (List.mem_cons_self y seen)

theorem dedupFirst_eq_self (l : List String) : ∀ seen : List String, l.Nodup →
    (∀ x ∈ l, x ∉ seen) → dedupFirst l seen = l := by
  induction l with
  | nil => intro seen _ _; rfl
  | cons y ys ih =>
    intro seen h1 h2
    rw [dedupFirst, if_neg (h2 y (List.mem_cons_self y ys))]
    have hys : ys.Nodup := (List.nodup_cons.mp h1).2
    have hy : y ∉ ys := (List.nodup_cons.mp h1).1
    refine congrArg (y :: ·) (ih (y :: seen) hys (fun x hx hs => ?_))
    rcases List.mem_cons.mp hs with rfl | hs
    · exact hy hx
    · exact h2 x (List.mem_cons_of_mem y hx) hs

theorem collectParts_snd (g : AnswerGenerator) (query : String) (l : List Candidate) :
    (collectParts g query l).2 = (l.filter (contributes g query)).map mkCitation := by
  induction l with
  | nil => rfl
  | cons c rest ih =>
    by_cases h1 : topScore c < g.threshold * (7 / 10)
    · rw [collectParts, if_pos h1, ih, List.filter_cons, show contributes g query c = false by
        simp [contributes, h1]]
      rfl
    · by_cases h2 : (extractRelevantSentences query c.chunk_text).isEmpty
      · rw [collectParts, if_neg h1]
        simp only [h2, if_true]
        rw [ih, List.filter_cons, show contributes g query c = false by
          simp [contributes, h1, h2]]
        rfl
      · rw [collectParts, if_neg h1]
        simp only [h2, Bool.false_eq_true, if_false]
        rw [List.filter_cons, show contributes g query c = true by
          simp [contributes, h1, h2]]
        simp only [if_true, List.map_cons, ih]

theorem collectParts_fst (g : AnswerGenerator) (query : String) (l : List Candidate) :
    (collectParts g query l).1
      = ((l.filter (contributes g query)).map
          (fun c => extractRelevantSentences query c.chunk_text)).flatten := by
  induction l with
  | nil => rfl
  | cons c rest ih =>
    by_cases h1 : topScore c < g.threshold * (7 / 10)
    · rw [collectParts, if_pos h1, ih, List.filter_cons, show contributes g query c = false by
        simp [contributes, h1]]
      rfl
    · by_cases h2 : (extractRelevantSentences query c.chunk_text).isEmpty
      · rw [collectParts, if_neg h1]
        simp only [h2, if_true]
        rw [ih, List.filter_cons, show contributes g query c = false by
          simp [contributes, h1, h2]]
        rfl
      · rw [collectParts, if_neg h1]
        simp only [h2, Bool.false_eq_true, if_false]
        rw [List.filter_cons, show contributes g query c = true by
          simp [contributes, h1, h2]]
        simp only [if_true, List.map_cons, List.flatten_cons, ih]

theorem hybridKey_attach_one (rr : HybridReranker) (get_scores : List String → List ℚ)
    (query : String) (res : List Candidate) (r : Candidate) :
    hybridKey (attachFn 1 rr get_scores query res r) = normVec res r := by
  simp [hybridKey, attachFn]

theorem hybridKey_attach_zero (rr : HybridReranker) (get_scores : List String → List ℚ)
    (query : String) (res : List Candidate) (r : Candidate) :
    hybridKey (attachFn 0 rr get_scores query res r) = normBm rr get_scores query res r := by
  simp [hybridKey, attachFn]

theorem normVec_le_iff (res : List Candidate) (a b : Candidate) (ha : a ∈ res)
    (hb : b ∈ res) : (normVec res a ≤ normVec res b ↔ a.vector_score ≤ b.vector_score) := by
  unfold normVec
  exact normFn_le_iff (res.map (fun c => c.vector_score)) a.vector_score b.vector_score
    (List.mem_map_of_mem _ ha) (List.mem_map_of_mem _ hb)

theorem normBm_le_iff (rr : HybridReranker) (get_scores : List String → List ℚ)
    (query : String) (res : List Candidate) (a b : Candidate) (ha : a ∈ res) (hb : b ∈ res) :
    (normBm rr get_scores query res a ≤ normBm rr get_scores query res b
      ↔ bmOf rr get_scores query a ≤ bmOf rr get_scores query b) := by
  unfold normBm
  exact normFn_le_iff (res.map (bmOf rr get_scores query)) (bmOf rr get_scores query a)
    (bmOf rr get_scores query b) (List.mem_map_of_mem _ ha) (List.mem_map_of_mem _ hb)

theorem stripScores_attachFn (alpha : ℚ) (rr : HybridReranker)
    (get_scores : List String → List ℚ) (query : String) (res : List Candidate)
    (r : Candidate) : stripScores (attachFn alpha rr get_scores query res r) = stripScores r :=
  rfl

theorem map_strip_map_attach (alpha : ℚ) (rr : HybridReranker)
    (get_scores : List String → List ℚ) (query : String) (res : List Candidate)
    (l : List Candidate) :
    (l.map (attachFn alpha rr get_scores query res)).map stripScores = l.map stripScores := by
  rw [List.map_map]
  exact List.map_congr_left (fun r _ => rfl)

theorem mem_scored_pairs (query text : String) (p : String × Nat)
    (hp : p ∈ List.insertionSort (fun a b : String × Nat => b.2 ≤ a.2)
      ((splitSentences text).map (fun s => (s, overlapScore query s)))) :
    p.2 = overlapScore query p.1 := by
  have hp2 := (List.mem_insertionSort _).mp hp
  rcases List.mem_map.mp hp2 with ⟨s, _, rfl⟩
  rfl

theorem filter_pair_map_fst (query : String) (A : List (String × Nat))
    (hA : ∀ p ∈ A, p.2 = overlapScore query p.1) :
    (A.filter (fun p => decide (0 < p.2 ∧ 20 < p.1.length))).map (fun p => p.1)
      = (A.map (fun p => p.1)).filter
          (fun s => decide (0 < overlapScore query s ∧ 20 < s.length)) := by
  induction A with
  | nil => rfl
  | cons p ps ih =>
    have hp := hA p (List.mem_cons_self p ps)
    have hrest : ∀ q ∈ ps, q.2 = overlapScore query q.1 :=
      fun q hq => hA q (List.mem_cons_of_mem p hq)
    rw [List.filter_cons, List.map_cons, List.filter_cons, hp]
    by_cases hc : 0 < overlapScore query p.1 ∧ 20 < p.1.length
    · rw [if_pos (decide_eq_true hc), if_pos (decide_eq_true hc), List.map_cons, ih hrest]
    · rw [if_neg (fun hd => hc (of_decide_eq_true hd)),
        if_neg (fun hd => hc (of_decide_eq_true hd)), ih hrest]

/-- C3 (amended): sentence extraction splits the text on terminal
punctuation, scores each sentence by the size of the lowercase word-token
overlap with the query, ranks sentences by overlap descending with ties in
original order, truncates to the first two ranked sentences, and returns
exactly those of the first two that have overlap > 0 and length > 20, so
at most 2 sentences per passage.  The claim's reading, which filters the
qualifying sentences first and caps afterwards, fails on the code: see the
counterexample. -/
theorem c3_sentence_extraction (query text : String) :
    (extractRelevantSentences query text).length ≤ 2
    ∧ extractRelevantSentences query text
        = ((rankedSentences query text).take 2).filter
            (fun s => decide (0 < overlapScore query s ∧ 20 < s.length)) := by
  constructor
  · have h1 : (extractRelevantSentences query text).length
        ≤ ((List.insertionSort (fun a b : String × Nat => b.2 ≤ a.2)
            ((splitSentences text).map (fun s => (s, overlapScore query s)))).take 2).length := by
      unfold extractRelevantSentences
      rw [List.length_map]
      exact List.length_filter_le _ _
    refine le_trans h1 ?_
    rw [List.length_take]
    exact min_le_left _ _
  · unfold extractRelevantSentences rankedSentences
    rw [← List.map_take]
    exact filter_pair_map_fst query _ (fun p hp =>
      mem_scored_pairs query text p (List.take_subset 2 _ hp))

/-- C3 counterexample: on this passage the two highest-overlap sentences
are short, so the code extracts nothing, while the claim's reading (filter
the qualifying sentences, then cap at 2) keeps the long overlap-1
sentence. -/
theorem c3_counterexample :
    extractRelevantSentences "aa bb" "aa bb. aa bb. aa cc dd ee ff gg hh iii jjj kkk." = []
    ∧ specExtractRelevantSentences "aa bb" "aa bb. aa bb. aa cc dd ee ff gg hh iii jjj kkk."
        = ["aa cc dd ee ff gg hh iii jjj kkk"]
    ∧ extractRelevantSentences "aa bb" "aa bb. aa bb. aa cc dd ee ff gg hh iii jjj kkk."
        ≠ specExtractRelevantSentences "aa bb"
            "aa bb. aa bb. aa cc dd ee ff gg hh iii jjj kkk." := by decide

/-- C4: min-max normalization maps the empty vector to itself, keeps every
normalized value inside the unit interval, sends an all-tied vector
(including a singleton) to all-ones without dividing by zero, and otherwise
rescales every score by the min-max affine map. -/
theorem c4_normalization_bounds (l : List ℚ) :
    normalizeScores ([] : List ℚ) = []
    ∧ (∀ x ∈ normalizeScores l, 0 ≤ x ∧ x ≤ 1)
    ∧ (l ≠ [] → listMax l = listMin l → normalizeScores l = List.replicate l.length 1)
    ∧ (listMax l ≠ listMin l →
        normalizeScores l = l.map (fun s => (s - listMin l) / (listMax l - listMin l))) := by
  refine ⟨rfl, ?_, ?_, ?_⟩
  · intro x hx
    rcases eq_or_ne l [] with rfl | hne
    · cases hx
    · rw [normalizeScores_eq_map l hne] at hx
      rcases List.mem_map.mp hx with ⟨s, hs, rfl⟩
      by_cases h : listMax l = listMin l
      · constructor <;> simp [normFn, h]
      · have hlt : listMin l < listMax l :=
          lt_of_le_of_ne (listMin_le_listMax l hne) (fun e => h e.symm)
        have hpos : (0 : ℚ) < listMax l - listMin l := sub_pos.mpr hlt
        constructor
        · simp only [normFn, if_neg h]
          exact div_nonneg (sub_nonneg.mpr (listMin_le l s hs)) (le_of_lt hpos)
        · simp only [normFn, if_neg h]
          rw [div_le_one hpos]
          exact sub_le_sub_right (le_listMax l s hs) _
  · intro hne h
    rw [normalizeScores_eq_map l hne]
    have hfn : normFn (listMin l) (listMax l) = fun _ => (1 : ℚ) :=
      funext fun s => by simp [normFn, h]
    rw [hfn, List.map_const']
  · intro h
    have hne : l ≠ [] := by rintro rfl; exact h rfl
    rw [normalizeScores_eq_map l hne]
    apply List.map_congr_left
    intro s _
    simp [normFn, h]

theorem c4_normalization_bounds_witness :
    normalizeScores [mkRat 1 2, mkRat 1 2]
      = List.replicate (List.length [mkRat 1 2, mkRat 1 2]) 1 :=
  (c4_normalization_bounds [mkRat 1 2, mkRat 1 2]).2.2.1 (by decide)
    (by with_unfolding_all decide)

/-- C6 (amended): on the empty candidate list the synthesizer terminates
immediately with a null answer whose reason is the exact source string
"No relevant contexts found"; the claim's literal reason "no candidates"
does not occur, see the counterexample. -/
theorem c6_empty_candidates (g : AnswerGenerator) (query : String) :
    generate_answer g query [] = (none, "No relevant contexts found") := rfl

/-- C6 counterexample: the reason produced for the empty candidate list is
not the claimed string "no candidates". -/
theorem c6_counterexample :
    (generate_answer ⟨mkRat 7 10, "0.7"⟩ "any query" []).1 = none
    ∧ (generate_answer ⟨mkRat 7 10, "0.7"⟩ "any query" []).2 ≠ "no candidates"
    ∧ (generate_answer ⟨mkRat 7 10, "0.7"⟩ "any query" []).2
        = "No relevant contexts found" := by decide

/-- C9: sentence deduplication by exact text match keeps the first
occurrence of each sentence, always yields a duplicate-free list, returns
an already duplicate-free list unchanged, and is therefore idempotent. -/
theorem c9_dedup_idempotent (l : List String) :
    (dedupFirst l []).Nodup
    ∧ (l.Nodup → dedupFirst l [] = l)
    ∧ dedupFirst (dedupFirst l []) [] = dedupFirst l [] := by
  refine ⟨dedupFirst_nodup l [], ?_, ?_⟩
  · intro h
    exact dedupFirst_eq_self l [] h (fun x _ => List.not_mem_nil x)
  · exact dedupFirst_eq_self (dedupFirst l []) [] (dedupFirst_nodup l [])
      (fun x _ => List.not_mem_nil x)

theorem c9_dedup_idempotent_witness :
    dedupFirst ["a", "b"] [] = ["a", "b"] :=
  (c9_dedup_idempotent ["a", "b"]).2.1 (by decide)

/-- C10: with no BM25 index built (empty corpus) the reranker returns any
candidate list unchanged for every query, attaching no fused score, and on
such candidates the synthesizer's score fallback reads the raw semantic
score. -/
theorem c10_no_index_degradation (alpha : ℚ) (rr : HybridReranker) (query : String)
    (res : List Candidate) (hb : rr.bm25 = none) :
    rerank alpha rr query res = res
    ∧ ∀ c ∈ res, c.hybrid_score = none → topScore c = c.vector_score := by
  constructor
  · rcases res with _ | ⟨c, cs⟩
    · rfl
    · simp only [rerank, List.isEmpty_cons, Bool.false_eq_true, if_false, hb]
  · intro c _ hnone
    simp [topScore, hnone]

theorem c10_no_index_degradation_witness :
    rerank 1 ⟨([] : List Int), none⟩ "q"
        [{ id := 4, chunk_text := "x", title := "t", url := "u", vector_score := mkRat 3 4 }]
      = [{ id := 4, chunk_text := "x", title := "t", url := "u", vector_score := mkRat 3 4 }] :=
  (c10_no_index_degradation 1 ⟨([] : List Int), none⟩ "q"
    [{ id := 4, chunk_text := "x", title := "t", url := "u", vector_score := mkRat 3 4 }] rfl).1

/-- C1 (amended): with a nonempty candidate list the gate score is the
fused score when present, else the raw semantic score; the synthesizer
abstains at the confidence gate exactly when this score is strictly below
the threshold, with a reason string containing the score rendered to three
decimals and the threshold rendering; a score equal to the threshold
passes the gate and the computation proceeds to extraction, which can
still yield a null answer when no relevant sentence is found, so overall
nullness is not equivalent to the gate test (see the counterexample). -/
theorem c1_confidence_gate (g : AnswerGenerator) (query : String) (c0 : Candidate)
    (rest : List Candidate) :
    (topScore c0 < g.threshold →
      generate_answer g query (c0 :: rest)
        = (none, "Top result score (" ++ format3 (topScore c0)
            ++ ") below confidence threshold (" ++ g.thresholdStr ++ ")"))
    ∧ (g.threshold ≤ topScore c0 →
      generate_answer g query (c0 :: rest)
        = answerFromContexts g query (c0 :: rest) (topScore c0)) := by
  constructor
  · intro h
    simp only [generate_answer, if_pos h]
  · intro h
    simp only [generate_answer, if_neg (not_lt.mpr h)]

theorem c1_confidence_gate_witness :
    generate_answer ⟨mkRat 7 10, "0.7"⟩ "hi"
        [{ id := 1, chunk_text := "zz", title := "t", url := "u", vector_score := mkRat 1 2 }]
      = (none, "Top result score ("
          ++ format3 (topScore { id := 1, chunk_text := "zz", title := "t", url := "u", vector_score := mkRat 1 2 })
          ++ ") below confidence threshold (" ++ "0.7" ++ ")") :=
  (c1_confidence_gate ⟨mkRat 7 10, "0.7"⟩ "hi"
    { id := 1, chunk_text := "zz", title := "t", url := "u", vector_score := mkRat 1 2 } []).1
    (by with_unfolding_all decide)

/-- C1 counterexample: a candidate scoring 0.9 with threshold 0.7 passes
the gate yet the synthesizer still returns a null answer because no
relevant sentence can be extracted, so "abstains (null answer) exactly
when top score is below the threshold" fails in the right-to-left
direction. -/
theorem c1_counterexample :
    (generate_answer ⟨mkRat 7 10, "0.7"⟩ "hello"
        [{ id := 1, chunk_text := "zz", title := "t", url := "u", vector_score := mkRat 9 10 }]).1 = none
    ∧ ¬ topScore { id := 1, chunk_text := "zz", title := "t", url := "u", vector_score := mkRat 9 10 } < mkRat 7 10 := by
  with_unfolding_all decide

/-- C2: whenever the synthesizer produces a non-null answer, the citation
list consists of exactly one citation, in input order, per contributing
context among the top three (so no candidate yields two citations and only
contributing candidates are cited), every sentence extracted from a cited
context occurs in the deduplicated answer parts joined into the final
text, the answer is assembled from precisely these parts and citations,
and at least one citation exists. -/
theorem c2_citation_integrity (g : AnswerGenerator) (query : String)
    (ctxs : List Candidate) (a r : String)
    (h : generate_answer g query ctxs = (some a, r)) :
    (collectParts g query (ctxs.take 3)).2
        = ((ctxs.take 3).filter (contributes g query)).map mkCitation
    ∧ (∀ c ∈ ctxs.take 3, contributes g query c = true →
        ∀ s ∈ extractRelevantSentences query c.chunk_text,
          s ∈ dedupFirst (collectParts g query (ctxs.take 3)).1 [])
    ∧ a = combineAnswerParts (collectParts g query (ctxs.take 3)).1
        (collectParts g query (ctxs.take 3)).2
    ∧ (collectParts g query (ctxs.take 3)).2 ≠ [] := by
  have hsnd := collectParts_snd g query (ctxs.take 3)
  have hfst := collectParts_fst g query (ctxs.take 3)
  have hmain : a = combineAnswerParts (collectParts g query (ctxs.take 3)).1
        (collectParts g query (ctxs.take 3)).2
      ∧ ¬ (collectParts g query (ctxs.take 3)).1.isEmpty = true := by
    rcases ctxs with _ | ⟨c0, rest⟩
    · exact absurd (congrArg Prod.fst h) (by simp [generate_answer])
    · by_cases hgate : topScore c0 < g.threshold
      · simp only [generate_answer, if_pos hgate] at h
        exact absurd (congrArg Prod.fst h) (by simp)
      · simp only [generate_answer, if_neg hgate, answerFromContexts] at h
        by_cases hparts : (collectParts g query ((c0 :: rest).take 3)).1.isEmpty = true
        · rw [if_pos hparts] at h
          exact absurd (congrArg Prod.fst h) (by simp)
        · rw [if_neg hparts] at h
          have ha := congrArg Prod.fst h
          simp only at ha
          exact ⟨(Option.some.inj ha).symm, hparts⟩
  refine ⟨hsnd, ?_, hmain.1, ?_⟩
  · intro c hc hcont s hs
    rw [mem_dedupFirst]
    refine ⟨?_, List.not_mem_nil s⟩
    rw [hfst]
    exact List.mem_flatten.mpr
      ⟨extractRelevantSentences query c.chunk_text,
        List.mem_map_of_mem _ (List.mem_filter.mpr ⟨hc, hcont⟩), hs⟩
  · intro hcit
    apply hmain.2
    rw [hsnd] at hcit
    have hfilter : (ctxs.take 3).filter (contributes g query) = [] :=
      List.map_eq_nil_iff.mp hcit
    rw [hfst, hfilter]
    rfl

theorem c2_citation_integrity_witness :
    (collectParts ⟨mkRat 7 10, "0.7"⟩ "What is ISO 13849 1"
        ([{ id := 1,
            chunk_text := "ISO 13849 1 is an international standard for machinery safety. It provides guidance.",
            title := "T1", url := "u1", vector_score := mkRat 17 20 }].take 3)).2 ≠ [] :=
  (c2_citation_integrity ⟨mkRat 7 10, "0.7"⟩ "What is ISO 13849 1"
    [{ id := 1,
        chunk_text := "ISO 13849 1 is an international standard for machinery safety. It provides guidance.",
        title := "T1", url := "u1", vector_score := mkRat 17 20 }]
    "ISO 13849 1 is an international standard for machinery safety\n\nSources: [1] T1"
    "Answer generated from 1 sources with top score 0.850"
    (by with_unfolding_all decide)).2.2.2

/-- C5: on the fusion path the reranker output is sorted by fused score
descending; candidates with equal fused scores keep the order they have in
the unsorted fused list (per-key filter identity), which itself lists the
input candidates in their original order; with ALPHA = 1 the fused order
equals the semantic-only order and with ALPHA = 0 the lexical-only order,
compared after forgetting the attached score fields. -/
theorem c5_fusion_ordering (alpha : ℚ) (rr : HybridReranker)
    (get_scores : List String → List ℚ) (query : String) (res : List Candidate)
    (hne : res ≠ []) (hb : rr.bm25 = some get_scores) :
    List.Sorted (fun a b => hybridKey b ≤ hybridKey a) (rerank alpha rr query res)
    ∧ (∀ k : ℚ, (rerank alpha rr query res).filter (fun c => decide (hybridKey c = k))
        = (fuseScores alpha rr get_scores query res).filter (fun c => decide (hybridKey c = k)))
    ∧ (fuseScores alpha rr get_scores query res).map stripScores = res.map stripScores
    ∧ (rerank 1 rr query res).map stripScores = (semanticOrder res).map stripScores
    ∧ (rerank 0 rr query res).map stripScores
        = (lexicalOrder rr get_scores query res).map stripScores := by
  refine ⟨?_, ?_, ?_, ?_, ?_⟩
  · rw [rerank_eq_sort alpha rr get_scores query res hne hb]
    haveI h1 : IsTotal Candidate (fun a b => hybridKey b ≤ hybridKey a) :=
      ⟨fun a b => le_total (hybridKey b) (hybridKey a)⟩
    haveI h2 : IsTrans Candidate (fun a b => hybridKey b ≤ hybridKey a) :=
      ⟨fun _ _ _ hab hbc => le_trans hbc hab⟩
    exact List.sorted_insertionSort _ _
  · intro k
    rw [rerank_eq_sort alpha rr get_scores query res hne hb]
    exact filter_key_insertionSort hybridKey k _
  · rw [fuseScores_eq_map alpha rr get_scores query res hne]
    exact map_strip_map_attach alpha rr get_scores query res res
  · have hl : ∀ a ∈ res, ∀ b ∈ res,
        (b.vector_score ≤ a.vector_score
          ↔ hybridKey (attachFn 1 rr get_scores query res b)
              ≤ hybridKey (attachFn 1 rr get_scores query res a)) := by
      intro a ha b hb2
      rw [hybridKey_attach_one, hybridKey_attach_one]
      exact (normVec_le_iff res b a hb2 ha).symm
    have hmap := List.map_insertionSort
      (fun a b : Candidate => b.vector_score ≤ a.vector_score)
      (fun a b : Candidate => hybridKey b ≤ hybridKey a)
      (attachFn 1 rr get_scores query res) res hl
    rw [rerank_eq_sort 1 rr get_scores query res hne hb,
      fuseScores_eq_map 1 rr get_scores query res hne, ← hmap,
      map_strip_map_attach]
    rfl
  · have hl : ∀ a ∈ res, ∀ b ∈ res,
        (dictGet (chunkBm25 rr get_scores query) b.id
            ≤ dictGet (chunkBm25 rr get_scores query) a.id
          ↔ hybridKey (attachFn 0 rr get_scores query res b)
              ≤ hybridKey (attachFn 0 rr get_scores query res a)) := by
      intro a ha b hb2
      rw [hybridKey_attach_zero, hybridKey_attach_zero]
      exact (normBm_le_iff rr get_scores query res b a hb2 ha).symm
    have hmap := List.map_insertionSort
      (fun a b : Candidate => dictGet (chunkBm25 rr get_scores query) b.id
        ≤ dictGet (chunkBm25 rr get_scores query) a.id)
      (fun a b : Candidate => hybridKey b ≤ hybridKey a)
      (attachFn 0 rr get_scores query res) res hl
    rw [rerank_eq_sort 0 rr get_scores query res hne hb,
      fuseScores_eq_map 0 rr get_scores query res hne, ← hmap,
      map_strip_map_attach]
    rfl

theorem c5_fusion_ordering_witness :
    (rerank 1 (⟨[1, 2], some fun _ => [mkRat 2 10, mkRat 8 10]⟩ : HybridReranker) "q"
          [{ id := 1, chunk_text := "a", title := "A", url := "ua", vector_score := mkRat 9 10 },
           { id := 2, chunk_text := "b", title := "B", url := "ub", vector_score := mkRat 9 10 }]).map stripScores
        = (semanticOrder
            [{ id := 1, chunk_text := "a", title := "A", url := "ua", vector_score := mkRat 9 10 },
             { id := 2, chunk_text := "b", title := "B", url := "ub", vector_score := mkRat 9 10 }]).map stripScores
    ∧ (rerank 0 (⟨[1, 2], some fun _ => [mkRat 2 10, mkRat 8 10]⟩ : HybridReranker) "q"
          [{ id := 1, chunk_text := "a", title := "A", url := "ua", vector_score := mkRat 9 10 },
           { id := 2, chunk_text := "b", title := "B", url := "ub", vector_score := mkRat 9 10 }]).map stripScores
        = (lexicalOrder (⟨[1, 2], some fun _ => [mkRat 2 10, mkRat 8 10]⟩ : HybridReranker)
            (fun _ => [mkRat 2 10, mkRat 8 10]) "q"
            [{ id := 1, chunk_text := "a", title := "A", url := "ua", vector_score := mkRat 9 10 },
             { id := 2, chunk_text := "b", title := "B", url := "ub", vector_score := mkRat 9 10 }]).map stripScores :=
  ⟨(c5_fusion_ordering (mkRat 1 2) ⟨[1, 2], some fun _ => [mkRat 2 10, mkRat 8 10]⟩
      (fun _ => [mkRat 2 10, mkRat 8 10]) "q"
      [{ id := 1, chunk_text := "a", title := "A", url := "ua", vector_score := mkRat 9 10 },
       { id := 2, chunk_text := "b", title := "B", url := "ub", vector_score := mkRat 9 10 }]
      (by decide) rfl).2.2.2.1,
   (c5_fusion_ordering (mkRat 1 2) ⟨[1, 2], some fun _ => [mkRat 2 10, mkRat 8 10]⟩
      (fun _ => [mkRat 2 10, mkRat 8 10]) "q"
      [{ id := 1, chunk_text := "a", title := "A", url := "ua", vector_score := mkRat 9 10 },
       { id := 2, chunk_text := "b", title := "B", url := "ub", vector_score := mkRat 9 10 }]
      (by decide) rfl).2.2.2.2⟩

theorem lookup_none_of_keys_ne (k : Int) (m : List (Int × ℚ))
    (hk : ∀ p ∈ m, p.1 ≠ k) : List.lookup k m = none := by
  induction m with
  | nil => rfl
  | cons p t ih =>
    rcases p with ⟨x, b⟩
    have hx : (k == x) = false := by
      have := hk (x, b) (List.mem_cons_self _ t)
      simp only [beq_eq_false_iff_ne]
      exact fun e => this e.symm
    simp only [List.lookup, hx]
    exact ih (fun q hq => hk q (List.mem_cons_of_mem _ hq))

theorem dictGet_zero (pairs : List (Int × ℚ)) (k : Int)
    (hk : ∀ p ∈ pairs, p.1 ≠ k) : dictGet pairs k = 0 := by
  unfold dictGet
  rw [lookup_none_of_keys_ne k pairs.reverse (fun p hp => hk p (List.mem_reverse.mp hp))]
  rfl

/-- C7: fusion of the empty candidate list is a no-op rather than an
error, and a fused candidate whose passage id is absent from the lexical
index carries a raw lexical score of exactly zero. -/
theorem c7_fusion_defaults (alpha : ℚ) (rr : HybridReranker)
    (get_scores : List String → List ℚ) (query : String) (res : List Candidate)
    (hb : rr.bm25 = some get_scores) (hne : res ≠ []) :
    rerank alpha rr query ([] : List Candidate) = []
    ∧ ∀ c ∈ rerank alpha rr query res, c.id ∉ rr.chunk_ids → c.bm25_score = some 0 := by
  constructor
  · rfl
  · intro c hc hid
    rw [rerank_eq_sort alpha rr get_scores query res hne hb] at hc
    have hc2 := (List.mem_insertionSort _).mp hc
    rw [fuseScores_eq_map alpha rr get_scores query res hne] at hc2
    rcases List.mem_map.mp hc2 with ⟨orig, _, rfl⟩
    show some (bmOf rr get_scores query orig) = some 0
    have hz : bmOf rr get_scores query orig = 0 := by
      unfold bmOf
      apply dictGet_zero
      rintro ⟨x, y⟩ hp e
      exact hid (e ▸ (List.of_mem_zip hp).1)
    rw [hz]

theorem c7_fusion_defaults_witness : wFused.bm25_score = some 0 :=
  (c7_fusion_defaults 1 wRR wScores "q" [wOrig] rfl (by decide)).2
    wFused (by with_unfolding_all decide) (by decide)

/-- C8: every candidate in the fusion output is a copy of an input
candidate, preserving id, text, title, url and the raw semantic score,
and carries all four attached values: the raw BM25 score as looked up for
its id, both normalized scores, and the fused score formed as the
ALPHA-weighted combination of the two normalized scores. -/
theorem c8_score_preservation (alpha : ℚ) (rr : HybridReranker)
    (get_scores : List String → List ℚ) (query : String) (res : List Candidate)
    (hb : rr.bm25 = some get_scores) (hne : res ≠ []) :
    ∀ c ∈ rerank alpha rr query res, ∃ orig ∈ res,
      c.id = orig.id ∧ c.chunk_text = orig.chunk_text ∧ c.title = orig.title
      ∧ c.url = orig.url ∧ c.vector_score = orig.vector_score
      ∧ c.bm25_score = some (dictGet (chunkBm25 rr get_scores query) orig.id)
      ∧ ∃ nv nb : ℚ, c.normalized_vector_score = some nv
          ∧ c.normalized_bm25_score = some nb
          ∧ c.hybrid_score = some (alpha * nv + (1 - alpha) * nb) := by
  intro c hc
  rw [rerank_eq_sort alpha rr get_scores query res hne hb] at hc
  have hc2 := (List.mem_insertionSort _).mp hc
  rw [fuseScores_eq_map alpha rr get_scores query res hne] at hc2
  rcases List.mem_map.mp hc2 with ⟨orig, ho, rfl⟩
  exact ⟨orig, ho, rfl, rfl, rfl, rfl, rfl, rfl,
    normVec res orig, normBm rr get_scores query res orig, rfl, rfl, rfl⟩

theorem c8_score_preservation_witness :
    ∃ orig ∈ [wOrig], wFused.id = orig.id ∧ wFused.chunk_text = orig.chunk_text
      ∧ wFused.title = orig.title ∧ wFused.url = orig.url
      ∧ wFused.vector_score = orig.vector_score
      ∧ wFused.bm25_score = some (dictGet (chunkBm25 wRR wScores "q") orig.id)
      ∧ ∃ nv nb : ℚ, wFused.normalized_vector_score = some nv
          ∧ wFused.normalized_bm25_score = some nb
          ∧ wFused.hybrid_score = some (1 * nv + (1 - 1) * nb) :=
  c8_score_preservation 1 wRR wScores "q" [wOrig] rfl (by decide) wFused
    (by with_unfolding_all decide)
